import Mathlib

/-!
Shallow embedding of the MBTiles splitting engine (split_mbtiles.py).

Relations are embedded as Lean lists of row structures; Python dicts as
association lists; SQLite aggregate queries as list computations; the
Python float overhead factor as a rational number with explicit
truncation toward zero mirroring int(); fallible operations as Except.
A SQL relation read without ORDER BY is modelled as the list in rowid
(insertion) order, which is how SQLite enumerates these append-only
tables.
-/

/-- One row of a `tiles`-schema relation:
(zoom_level, tile_column, tile_row, tile_data BLOB, nullable). -/
structure TileRow where
  z : Int
  col : Int
  row : Int
  data : Option (List Nat)
deriving DecidableEq, Repr

/-- One row of the coordinate (`map`) relation of the map/images schema:
(zoom_level, tile_column, tile_row, tile_id TEXT). -/
structure MapRow where
  z : Int
  col : Int
  row : Int
  tid : String
deriving DecidableEq, Repr

/-- One row of the image (`images`) relation:
(tile_id TEXT, tile_data BLOB, nullable). -/
structure ImgRow where
  tid : String
  data : Option (List Nat)
deriving DecidableEq, Repr

/-- A `tiles`-schema database: its tiles relation and its metadata
relation (name, value pairs; a source without a metadata table behaves
exactly like one with an empty metadata relation, since the only read is
guarded by table_exists). -/
structure TilesDb where
  tiles : List TileRow
  metadata : List (String × String)
deriving DecidableEq, Repr

/-- A map/images-schema database: coordinate relation, image relation,
metadata relation. -/
structure MapImagesDb where
  map : List MapRow
  images : List ImgRow
  metadata : List (String × String)
deriving DecidableEq, Repr

/-- A source archive of either schema variant, as dispatched by
get_mbtiles_schema_type. -/
inductive SourceDb where
  | tiles (db : TilesDb)
  | mapImages (db : MapImagesDb)

/-- The database file as seen by schema detection: the set of table
names recorded in sqlite_master. -/
structure DbFile where
  tables : List String
deriving DecidableEq, Repr

/-- Schema classification result. -/
inductive SchemaKind where
  | tiles
  | map_images
deriving DecidableEq, Repr

/-- table_exists: SELECT 1 FROM sqlite_master WHERE type=table AND name=? . -/
def table_exists (db : DbFile) (name : String) : Bool :=
  db.tables.contains name

/-- get_mbtiles_schema_type: tiles table present gives "tiles"; else map
and images both present gives "map_images"; else RuntimeError
(the source message reads: Unsupported MBTiles schema. Expected tiles
table or map + images). A pure read of sqlite_master, no side effects. -/
def get_mbtiles_schema_type (db : DbFile) : Except String SchemaKind :=
  if table_exists db "tiles" then Except.ok SchemaKind.tiles
  else if table_exists db "map" && table_exists db "images" then Except.ok SchemaKind.map_images
  else Except.error "Unsupported MBTiles schema"

/-- SELECT DISTINCT x FROM t ORDER BY x: the distinct values of a column,
sorted ascending. -/
def distinctSorted (l : List Int) : List Int :=
  List.insertionSort (· ≤ ·) l.dedup

/-- LENGTH(tile_data) summed under SQL semantics: LENGTH(NULL) is NULL and
SUM skips NULLs, so a null blob contributes 0 bytes. -/
def blob_len (d : Option (List Nat)) : Nat :=
  match d with
  | none => 0
  | some b => b.length

/-- Per-zoom byte total for the tiles schema:
SUM(LENGTH(tile_data)) over the rows of one zoom_level group
(NULL sum coalesced to 0 by the int(r or 0) in the dict comprehension). -/
def tiles_zoom_total (rows : List TileRow) (z : Int) : Nat :=
  ((rows.filter (fun r => r.z == z)).map (fun r => blob_len r.data)).sum

/-- The inner join map JOIN images ON map.tile_id = images.tile_id:
every (coordinate row, image row) pair with matching tile_id. -/
def mi_join (db : MapImagesDb) : List (MapRow × ImgRow) :=
  db.map.flatMap (fun m => (db.images.filter (fun i => i.tid == m.tid)).map (fun i => (m, i)))

/-- Per-zoom byte total for the map/images schema: SUM(LENGTH(i.tile_data))
over the join rows of one m.zoom_level group. -/
def mi_zoom_total (j : List (MapRow × ImgRow)) (z : Int) : Nat :=
  ((j.filter (fun p => p.1.z == z)).map (fun p => blob_len p.2.data)).sum

/-- get_zoom_levels: SELECT DISTINCT zoom_level FROM tiles (or map)
ORDER BY zoom_level. -/
def get_zoom_levels : SourceDb → List Int
  | SourceDb.tiles db => distinctSorted (db.tiles.map (fun r => r.z))
  | SourceDb.mapImages db => distinctSorted (db.map.map (fun r => r.z))

/-- estimate_zoom_sizes_bytes: GROUP BY zoom_level of blob-length sums,
as a dict (association list keyed by the distinct grouping values in
ascending order). For the map/images schema the grouping runs over the
rows of the inner join of map with images. -/
def estimate_zoom_sizes_bytes : SourceDb → List (Int × Nat)
  | SourceDb.tiles db =>
      (distinctSorted (db.tiles.map (fun r => r.z))).map
        (fun z => (z, tiles_zoom_total db.tiles z))
  | SourceDb.mapImages db =>
      (distinctSorted ((mi_join db).map (fun p => p.1.z))).map
        (fun z => (z, mi_zoom_total (mi_join db) z))

/-- Python int() on a rational: truncation toward zero. -/
def truncToInt (q : ℚ) : Int :=
  if q < 0 then -⌊-q⌋ else ⌊q⌋

/-- zoom_bytes.get(z, 0): association-list lookup with default 0. -/
def dget (zb : List (Int × Nat)) (z : Int) : Nat :=
  (zb.lookup z).getD 0

/-- est = int(zoom_bytes.get(z, 0) * overhead_factor), translated
directly: the rational product truncated toward zero. -/
def adjEstRat (zb : List (Int × Nat)) (f : ℚ) (z : Int) : Int :=
  truncToInt ((dget zb z : ℚ) * f)

/-- est = int(zoom_bytes.get(z, 0) * overhead_factor), in executable
integer form: the product b * f has exact value (b * f.num) / f.den,
and int() truncates toward zero, which is Int.tdiv. Proved equal to the
direct translation adjEstRat below (adjEst_eq_adjEstRat). -/
def adjEst (zb : List (Int × Nat)) (f : ℚ) (z : Int) : Int :=
  ((dget zb z : Int) * f.num).tdiv (f.den : Int)

/-- The loop of group_zooms_by_limit: state is (remaining zooms, closed
groups, current group, current_est); mirrors the Python for-loop and the
final flush of a non-empty current group. -/
def groupLoop (zb : List (Int × Nat)) (limit : Int) (f : ℚ) :
    List Int → List (List Int) → List Int → Int → List (List Int)
  | [], groups, current, _ =>
      if current = [] then groups else groups ++ [current]
  | z :: rest, groups, current, cest =>
      let est := adjEst zb f z
      if current = [] then
        groupLoop zb limit f rest groups [z] est
      else if cest + est ≤ limit then
        groupLoop zb limit f rest groups (current ++ [z]) (cest + est)
      else
        groupLoop zb limit f rest (groups ++ [current]) [z] est

/-- group_zooms_by_limit: greedy single-pass packing of zoom levels into
groups under limit_bytes. -/
def group_zooms_by_limit (zooms : List Int) (zb : List (Int × Nat))
    (limit : Int) (f : ℚ) : List (List Int) :=
  groupLoop zb limit f zooms [] [] 0

/-- Sum of the adjusted (int-truncated) member estimates of one group:
the value current_est holds when the group is the running group. -/
def sumEst (zb : List (Int × Nat)) (f : ℚ) (g : List Int) : Int :=
  (g.map (adjEst zb f)).sum

/-- Adjusted estimate of the first member of a group (0 for an empty
group; groups produced by the loop are never empty). -/
def headEst (zb : List (Int × Nat)) (f : ℚ) : List Int → Int
  | [] => 0
  | z :: _ => adjEst zb f z

/-- Greedy boundary relation between two consecutive output groups:
appending the second group's opening zoom level to the first group would
have pushed its running total over the limit. -/
def boundaryR (zb : List (Int × Nat)) (f : ℚ) (limit : Int)
    (g g' : List Int) : Prop :=
  limit < sumEst zb f g + headEst zb f g'

/-- copy_metadata: dst metadata is cleared (it is a fresh file, so already
empty) and every source metadata row is inserted in order. -/
def copy_metadata (srcMeta : List (String × String)) : List (String × String) :=
  ([] : List (String × String)) ++ srcMeta

/-- upsert_metadata: DELETE FROM metadata WHERE name=?, then INSERT the
new (name, value) row. -/
def upsert_metadata (meta : List (String × String)) (name value : String) :
    List (String × String) :=
  meta.filter (fun e => !(e.1 == name)) ++ [(name, value)]

/-- Python min over a non-empty list (the callers guard non-emptiness;
on [] the source raises, modelled by the unused junk value 0). -/
def listMin : List Int → Int
  | [] => 0
  | z :: zs => zs.foldl min z

/-- Python max over a non-empty list. -/
def listMax : List Int → Int
  | [] => 0
  | z :: zs => zs.foldl max z

/-- split_tiles_schema, data part. The destination is a fresh database
file (the orchestrator unlinks any pre-existing file): empty metadata,
and after create_schema_tiles an empty tiles relation. The copy statement
INSERT INTO tiles SELECT ... FROM tiles WHERE zoom_level IN (...) is
executed on the destination connection, and no ATTACH binds the source
database, so both table references resolve to the destination's own
tiles relation. -/
def split_tiles_schema (src : TilesDb) (zooms : List Int) : TilesDb :=
  let dstMeta0 := copy_metadata src.metadata
  let dstMeta1 := upsert_metadata dstMeta0 "minzoom" (toString (listMin zooms))
  let dstMeta2 := upsert_metadata dstMeta1 "maxzoom" (toString (listMax zooms))
  let dstTiles0 : List TileRow := []
  let dstTiles1 := dstTiles0 ++ dstTiles0.filter (fun r => zooms.contains r.z)
  { tiles := dstTiles1, metadata := dstMeta2 }

/-- INSERT OR IGNORE INTO images: insert each candidate row unless a row
with its tile_id primary key already exists. -/
def insertOrIgnoreImages (cur : List ImgRow) (new : List ImgRow) : List ImgRow :=
  new.foldl (fun acc i => if acc.any (fun j => j.tid == i.tid) then acc else acc ++ [i]) cur

/-- split_map_images_schema, data part. As in the tiles variant, both
copy statements run on the destination connection with no ATTACH of the
source: the map copy selects from the destination's own empty map
relation, and the images copy joins the destination's own empty images
relation against the destination map relation. -/
def split_map_images_schema (src : MapImagesDb) (zooms : List Int) : MapImagesDb :=
  let dstMeta0 := copy_metadata src.metadata
  let dstMeta1 := upsert_metadata dstMeta0 "minzoom" (toString (listMin zooms))
  let dstMeta2 := upsert_metadata dstMeta1 "maxzoom" (toString (listMax zooms))
  let dstMap0 : List MapRow := []
  let dstImgs0 : List ImgRow := []
  let dstMap1 := dstMap0 ++ dstMap0.filter (fun r => zooms.contains r.z)
  let refTids := (dstMap1.map (fun r => r.tid)).dedup
  let newImgs := dstImgs0.filter (fun i => refTids.contains i.tid)
  let dstImgs1 := insertOrIgnoreImages dstImgs0 newImgs
  { map := dstMap1, images := dstImgs1, metadata := dstMeta2 }

/-- vacuum_and_size: VACUUM preserves logical content; the on-disk byte
size is an environment observation, modelled by a measurement oracle. -/
def vacuum_and_size_tiles (measure : TilesDb → Nat) (db : TilesDb) : Nat :=
  measure db

/-- vacuum_and_size for a map/images destination. -/
def vacuum_and_size_mi (measure : MapImagesDb → Nat) (db : MapImagesDb) : Nat :=
  measure db

/-- The full split_tiles_schema call: populate the destination, measure
the compacted size, emit the advisory over-limit warning (modelled as
the Bool component) when size > limit_bytes, and return the size. The
body contains no raise, so the Except error branch is unreachable. -/
def run_split_tiles (measure : TilesDb → Nat) (src : TilesDb)
    (zooms : List Int) (limit : Nat) : Except String (Nat × Bool) :=
  let out := split_tiles_schema src zooms
  let size := vacuum_and_size_tiles measure out
  if limit < size then Except.ok (size, true) else Except.ok (size, false)

/-- The full split_map_images_schema call, same shape as the tiles one. -/
def run_split_map_images (measure : MapImagesDb → Nat) (src : MapImagesDb)
    (zooms : List Int) (limit : Nat) : Except String (Nat × Bool) :=
  let out := split_map_images_schema src zooms
  let size := vacuum_and_size_mi measure out
  if limit < size then Except.ok (size, true) else Except.ok (size, false)

/-- Failing input for the tiles writer: a source with one tile row at
zoom 0, split with group [0]. -/
def c1_src : TilesDb :=
  { tiles := [{ z := 0, col := 0, row := 0, data := some [7, 8] }],
    metadata := [("name", "t")] }

/-- Failing input for the map/images writer: one coordinate row at zoom 0
referencing one image row, split with group [0]. -/
def c2_src : MapImagesDb :=
  { map := [{ z := 0, col := 0, row := 0, tid := "t1" }],
    images := [{ tid := "t1", data := some [1] }],
    metadata := [] }

/-- Counterexample source for the estimator coverage claim: a map/images
archive whose only coordinate row references a tile_id with no image row. -/
def c5_src : SourceDb :=
  SourceDb.mapImages
    { map := [{ z := 5, col := 0, row := 0, tid := "x" }],
      images := [],
      metadata := [] }

/-- Well-formed map/images archive for the estimator coverage witness. -/
def c5_wit_db : MapImagesDb :=
  { map := [{ z := 7, col := 1, row := 2, tid := "a" }],
    images := [{ tid := "a", data := some [1, 2, 3] }],
    metadata := [] }

/-- Source archive used by the metadata witness. -/
def c8_wit_src : TilesDb :=
  { tiles := [],
    metadata := [("name", "t"), ("minzoom", "9"), ("format", "png")] }

/-- Map/images source used by the metadata witness side conditions. -/
def c8_wit_msrc : MapImagesDb :=
  { map := [], images := [], metadata := [("name", "m")] }

lemma mem_distinctSorted {a : Int} {l : List Int} : a ∈ distinctSorted l ↔ a ∈ l := by
  unfold distinctSorted
  rw [(List.perm_insertionSort (· ≤ ·) l.dedup).mem_iff, List.mem_dedup]

lemma truncToInt_intCast_div_natCast (m : Int) (d : Nat) (hd : d ≠ 0) :
    truncToInt ((m : ℚ) / (d : ℚ)) = m.tdiv d := by
  have hdq : (0 : ℚ) < (d : ℚ) := by exact_mod_cast Nat.pos_of_ne_zero hd
  have hdi : (0 : Int) ≤ (d : Int) := Int.natCast_nonneg d
  by_cases hm : 0 ≤ m
  · have hq : ¬ ((m : ℚ) / (d : ℚ) < 0) := by
      push_neg
      exact div_nonneg (by exact_mod_cast hm) (le_of_lt hdq)
    rw [truncToInt, if_neg hq, Rat.floor_intCast_div_natCast]
    exact (Int.tdiv_eq_ediv hm hdi).symm
  · push_neg at hm
    have hq : (m : ℚ) / (d : ℚ) < 0 :=
      div_neg_of_neg_of_pos (by exact_mod_cast hm) hdq
    rw [truncToInt, if_pos hq]
    have hneg : -((m : ℚ) / (d : ℚ)) = ((-m : Int) : ℚ) / (d : ℚ) := by
      push_cast
      ring
    rw [hneg, Rat.floor_intCast_div_natCast,
      ← Int.tdiv_eq_ediv (by omega) hdi, Int.neg_tdiv, neg_neg]

/-- The executable adjusted estimate agrees with the direct translation
of int(zoom_bytes.get(z, 0) * overhead_factor). -/
lemma adjEst_eq_adjEstRat (zb : List (Int × Nat)) (f : ℚ) (z : Int) :
    adjEst zb f z = adjEstRat zb f z := by
  unfold adjEst adjEstRat
  have hval : (((dget zb z : Int) * f.num : Int) : ℚ) / ((f.den : Nat) : ℚ)
      = (dget zb z : ℚ) * f := by
    push_cast
    rw [mul_div_assoc, Rat.num_div_den]
  rw [← hval, truncToInt_intCast_div_natCast _ _ f.den_nz]

/-- C1. The claim says the output tiles relation equals the source rows
whose zoom level lies in the group. In the code the copy statement runs
on the destination connection without attaching the source, so it
selects from the destination's own freshly created empty tiles relation:
at the failing input (one source tile row at zoom 0, group [0]) the
output tiles relation is empty although the source has a matching row. -/
theorem c1_tiles_copy_reads_empty_destination :
    (split_tiles_schema c1_src [0]).tiles = [] ∧
    c1_src.tiles.filter (fun r => ([0] : List Int).contains r.z) ≠ [] := by
  exact ⟨rfl, by decide⟩

/-- C2. Same slip in the map/images writer: both copy statements resolve
their table references in the destination database, so at the failing
input (one coordinate row at zoom 0 referencing one image, group [0])
the output map and images relations are both empty although the source
has a coordinate row whose zoom level is in the group. -/
theorem c2_map_images_copy_reads_empty_destination :
    (split_map_images_schema c2_src [0]).map = [] ∧
    (split_map_images_schema c2_src [0]).images = [] ∧
    c2_src.map.filter (fun r => ([0] : List Int).contains r.z) ≠ [] := by
  exact ⟨rfl, rfl, by decide⟩

/-- C5, counterexample. A map/images source whose only coordinate row
references a missing image: zoom 5 is returned by zoom enumeration but
the estimator's inner join drops it, so the estimate mapping has no
entry for it — refuting the claim for arbitrary archives. -/
theorem c5_counterexample :
    5 ∈ get_zoom_levels c5_src ∧
    5 ∉ (estimate_zoom_sizes_bytes c5_src).map Prod.fst := by
  decide

/-- C6. The documented scenario: zoom levels 0..3 with raw estimates
{0:1000, 1:2000, 2:50000000, 3:200}, overhead 1.25, limit 10,000,000
bytes, yield exactly the groups [0,1], [2], [3]. -/
theorem c6_scenario_groups :
    group_zooms_by_limit [0, 1, 2, 3] [(0, 1000), (1, 2000), (2, 50000000), (3, 200)]
        10000000 (mkRat 5 4) = [[0, 1], [2], [3]] := by
  decide

/-- C7. Schema detection classifies Tiles exactly when the tiles table
exists; otherwise MapImages exactly when both map and images exist; and
fails with the unsupported-schema error in every remaining case (the
detector is a pure read of sqlite_master, so it has no side effects on
the archive). -/
theorem c7_schema_detection :
    ∀ db : DbFile,
      (get_mbtiles_schema_type db = Except.ok SchemaKind.tiles ↔
        table_exists db "tiles" = true) ∧
      (get_mbtiles_schema_type db = Except.ok SchemaKind.map_images ↔
        (table_exists db "tiles" = false ∧ table_exists db "map" = true ∧
          table_exists db "images" = true)) ∧
      ((∃ msg, get_mbtiles_schema_type db = Except.error msg) ↔
        (table_exists db "tiles" = false ∧
          ¬(table_exists db "map" = true ∧ table_exists db "images" = true))) := by
  intro db
  unfold get_mbtiles_schema_type
  cases hT : table_exists db "tiles" <;>
    cases hM : table_exists db "map" <;>
      cases hI : table_exists db "images" <;>
        simp [hT, hM, hI]

/-- C9. For every measurement oracle, source, group and limit, each
writer returns normally with the measured post-compaction size; a size
exceeding the limit only sets the advisory warning flag, it is never
turned into an error, for both schema variants. -/
theorem c9_writer_returns_size_nonfatal :
    ∀ (mT : TilesDb → Nat) (mM : MapImagesDb → Nat) (src : TilesDb)
      (msrc : MapImagesDb) (zooms : List Int) (limit : Nat),
      run_split_tiles mT src zooms limit =
        Except.ok (mT (split_tiles_schema src zooms),
          decide (limit < mT (split_tiles_schema src zooms))) ∧
      run_split_map_images mM msrc zooms limit =
        Except.ok (mM (split_map_images_schema msrc zooms),
          decide (limit < mM (split_map_images_schema msrc zooms))) := by
  intro mT mM src msrc zooms limit
  refine ⟨?_, ?_⟩
  · unfold run_split_tiles vacuum_and_size_tiles
    by_cases h : limit < mT (split_tiles_schema src zooms) <;> simp [h]
  · unfold run_split_map_images vacuum_and_size_mi
    by_cases h : limit < mM (split_map_images_schema msrc zooms) <;> simp [h]

lemma groupLoop_flatten (zb : List (Int × Nat)) (limit : Int) (f : ℚ) :
    ∀ (rest : List Int) (groups : List (List Int)) (current : List Int) (cest : Int),
      (groupLoop zb limit f rest groups current cest).flatten = groups.flatten ++ (current ++ rest) := by
  intro rest
  induction rest with
  | nil =>
      intro groups current cest
      by_cases h : current = [] <;> simp [groupLoop, h]
  | cons z rest ih =>
      intro groups current cest
      by_cases h : current = []
      · simp [groupLoop, h, ih]
      · by_cases h2 : cest + adjEst zb f z ≤ limit <;> simp [groupLoop, h, h2, ih]

lemma groupLoop_ne_nil (zb : List (Int × Nat)) (limit : Int) (f : ℚ) :
    ∀ (rest : List Int) (groups : List (List Int)) (current : List Int) (cest : Int),
      (∀ g ∈ groups, g ≠ []) →
      ∀ g ∈ groupLoop zb limit f rest groups current cest, g ≠ [] := by
  intro rest
  induction rest with
  | nil =>
      intro groups current cest hg
      by_cases h : current = []
      · simp only [groupLoop, if_pos h]
        exact hg
      · simp only [groupLoop, if_neg h]
        intro g hgmem
        rcases List.mem_append.mp hgmem with h1 | h1
        · exact hg g h1
        · exact (List.mem_singleton.mp h1) ▸ h
  | cons z rest ih =>
      intro groups current cest hg
      by_cases h : current = []
      · simp only [groupLoop, if_pos h]
        exact ih groups [z] _ hg
      · by_cases h2 : cest + adjEst zb f z ≤ limit
        · simp only [groupLoop, if_neg h, if_pos h2]
          exact ih _ _ _ hg
        · simp only [groupLoop, if_neg h, if_neg h2]
          apply ih
          intro g hgmem
          rcases List.mem_append.mp hgmem with h1 | h1
          · exact hg g h1
          · exact (List.mem_singleton.mp h1) ▸ h

lemma countP_flatten_nodup :
    ∀ (gs : List (List Int)), gs.flatten.Nodup →
      ∀ z ∈ gs.flatten, gs.countP (fun g => decide (z ∈ g)) = 1 := by
  intro gs
  induction gs with
  | nil =>
      intro _ z hz
      simp at hz
  | cons g gs ih =>
      intro hnd z hz
      simp only [List.flatten_cons] at hnd hz
      rcases List.nodup_append.mp hnd with ⟨hg, hgs, hdisj⟩
      rcases List.mem_append.mp hz with hzg | hzgs
      · have hnot : z ∉ gs.flatten := fun hc => hdisj hzg hc
        have h0 : gs.countP (fun g => decide (z ∈ g)) = 0 := by
          rw [List.countP_eq_zero]
          intro g' hg'
          simp only [decide_eq_true_eq]
          exact fun hzg' => hnot (List.mem_flatten.mpr ⟨g', hg', hzg'⟩)
        simp [List.countP_cons, h0, hzg]
      · have hzng : z ∉ g := fun hc => hdisj hc hzgs
        simp [List.countP_cons, ih hgs z hzgs, hzng]

/-- C4. For a non-empty ascending zoom list the grouper returns an
ordered partition: concatenating the groups in order yields exactly the
input list, every group is non-empty, and every input zoom level lies in
exactly one group. -/
theorem c4_grouper_ordered_partition :
    ∀ (zooms : List Int) (zb : List (Int × Nat)) (limit : Int) (f : ℚ),
      zooms ≠ [] → List.Chain' (· < ·) zooms →
      (group_zooms_by_limit zooms zb limit f).flatten = zooms ∧
      (∀ g ∈ group_zooms_by_limit zooms zb limit f, g ≠ []) ∧
      (∀ z ∈ zooms,
        (group_zooms_by_limit zooms zb limit f).countP (fun g => decide (z ∈ g)) = 1) := by
  intro zooms zb limit f _ hasc
  have hjoin : (group_zooms_by_limit zooms zb limit f).flatten = zooms := by
    unfold group_zooms_by_limit
    simpa using groupLoop_flatten zb limit f zooms [] [] 0
  have hnodup : zooms.Nodup := by
    have hp : zooms.Pairwise (· < ·) := List.chain'_iff_pairwise.mp hasc
    exact hp.imp (fun h => ne_of_lt h)
  refine ⟨hjoin, ?_, ?_⟩
  · exact groupLoop_ne_nil zb limit f zooms [] [] 0 (by simp)
  · intro z hz
    have h1 : (group_zooms_by_limit zooms zb limit f).flatten.Nodup := by
      rw [hjoin]; exact hnodup
    have h2 : z ∈ (group_zooms_by_limit zooms zb limit f).flatten := by
      rw [hjoin]; exact hz
    exact countP_flatten_nodup _ h1 z h2

/-- Witness for C4 at a concrete input. -/
theorem c4_witness :
    (group_zooms_by_limit [1, 2] [] 0 (mkRat 1 1)).flatten = [1, 2] ∧
    (∀ g ∈ group_zooms_by_limit [1, 2] [] 0 (mkRat 1 1), g ≠ []) ∧
    (∀ z ∈ ([1, 2] : List Int),
      (group_zooms_by_limit [1, 2] [] 0 (mkRat 1 1)).countP (fun g => decide (z ∈ g)) = 1) :=
  c4_grouper_ordered_partition [1, 2] [] 0 (mkRat 1 1) (by decide) (by norm_num [List.chain'_cons])

lemma sumEst_append_single (zb : List (Int × Nat)) (f : ℚ) (g : List Int) (z : Int) :
    sumEst zb f (g ++ [z]) = sumEst zb f g + adjEst zb f z := by
  simp [sumEst]

lemma headEst_append (zb : List (Int × Nat)) (f : ℚ) {g : List Int} (h : g ≠ [])
    (z : Int) : headEst zb f (g ++ [z]) = headEst zb f g := by
  cases g with
  | nil => exact absurd rfl h
  | cons a l => simp [headEst]

lemma groupLoop_packing (zb : List (Int × Nat)) (limit : Int) (f : ℚ) :
    ∀ (rest : List Int) (groups : List (List Int)) (current : List Int) (cest : Int),
      current ≠ [] →
      cest = sumEst zb f current →
      (∀ g ∈ groups, 1 < g.length → sumEst zb f g ≤ limit) →
      (1 < current.length → cest ≤ limit) →
      List.Chain' (boundaryR zb f limit) (groups ++ [current]) →
      (∀ g ∈ groupLoop zb limit f rest groups current cest,
        1 < g.length → sumEst zb f g ≤ limit) ∧
      List.Chain' (boundaryR zb f limit) (groupLoop zb limit f rest groups current cest) := by
  intro rest
  induction rest with
  | nil =>
      intro groups current cest hne hcest hg hc hch
      simp only [groupLoop, if_neg hne]
      refine ⟨?_, hch⟩
      intro g hmem hlen
      rcases List.mem_append.mp hmem with h1 | h1
      · exact hg g h1 hlen
      · have he : g = current := List.mem_singleton.mp h1
        subst he
        rw [← hcest]
        exact hc hlen
  | cons z rest ih =>
      intro groups current cest hne hcest hg hc hch
      simp only [groupLoop, if_neg hne]
      by_cases h2 : cest + adjEst zb f z ≤ limit
      · rw [if_pos h2]
        apply ih
        · simp
        · rw [hcest, sumEst_append_single]
        · exact hg
        · exact fun _ => h2
        · rw [List.chain'_append] at hch ⊢
          obtain ⟨hc1, _, hc3⟩ := hch
          refine ⟨hc1, List.chain'_singleton _, ?_⟩
          intro x hx y hy
          have hy' : current ++ [z] = y := by simpa using hy
          subst hy'
          have hr : boundaryR zb f limit x current := hc3 x hx current (by simp)
          unfold boundaryR at hr ⊢
          rwa [headEst_append zb f hne]
      · rw [if_neg h2]
        apply ih
        · simp
        · simp [sumEst]
        · intro g hmem hlen
          rcases List.mem_append.mp hmem with h1 | h1
          · exact hg g h1 hlen
          · have he : g = current := List.mem_singleton.mp h1
            subst he
            rw [← hcest]
            exact hc hlen
        · intro hlen
          simp at hlen
        · rw [List.chain'_append]
          refine ⟨hch, List.chain'_singleton _, ?_⟩
          intro x hx y hy
          rw [List.getLast?_concat] at hx
          have hx' : current = x := by simpa using hx
          have hy' : [z] = y := by simpa using hy
          subst hx'
          subst hy'
          unfold boundaryR
          simp only [headEst]
          rw [← hcest]
          omega

/-- C3. Greedy packing bound: every group with more than one member has
adjusted-estimate sum at most the limit, and at every boundary between
consecutive groups, adding the opening zoom level of the next group to
the preceding group would have pushed that group's running total above
the limit. -/
theorem c3_greedy_packing_bound :
    ∀ (zooms : List Int) (zb : List (Int × Nat)) (limit : Int) (f : ℚ),
      List.Chain' (· < ·) zooms → 0 < limit → 1 ≤ f →
      (∀ g ∈ group_zooms_by_limit zooms zb limit f,
        1 < g.length → sumEst zb f g ≤ limit) ∧
      List.Chain' (boundaryR zb f limit) (group_zooms_by_limit zooms zb limit f) := by
  intro zooms zb limit f _ _ _
  cases zooms with
  | nil =>
      constructor
      · intro g hmem
        simp [group_zooms_by_limit, groupLoop] at hmem
      · simp [group_zooms_by_limit, groupLoop]
  | cons z rest =>
      have h0 : group_zooms_by_limit (z :: rest) zb limit f
          = groupLoop zb limit f rest [] [z] (adjEst zb f z) := by
        simp [group_zooms_by_limit, groupLoop]
      rw [h0]
      exact groupLoop_packing zb limit f rest [] [z] (adjEst zb f z)
        (by simp) (by simp [sumEst]) (by simp) (by simp) (by simp)

/-- Witness for C3 at a concrete input. -/
theorem c3_witness :
    (∀ g ∈ group_zooms_by_limit [0, 1] [(0, 3), (1, 4)] 100 (mkRat 3 2),
      1 < g.length → sumEst [(0, 3), (1, 4)] (mkRat 3 2) g ≤ 100) ∧
    List.Chain' (boundaryR [(0, 3), (1, 4)] (mkRat 3 2) 100)
      (group_zooms_by_limit [0, 1] [(0, 3), (1, 4)] 100 (mkRat 3 2)) :=
  c3_greedy_packing_bound [0, 1] [(0, 3), (1, 4)] 100 (mkRat 3 2)
    (by norm_num [List.chain'_cons]) (by norm_num) (by decide)

lemma adjEst_lookup_none (zb : List (Int × Nat)) (f : ℚ) (z : Int)
    (h : zb.lookup z = none) : adjEst zb f z = 0 := by
  unfold adjEst dget
  rw [h]
  simp

lemma adjEst_cons_self (zb : List (Int × Nat)) (f : ℚ) (z0 : Int)
    (h : zb.lookup z0 = none) :
    ∀ z, adjEst ((z0, 0) :: zb) f z = adjEst zb f z := by
  intro z
  unfold adjEst dget
  by_cases hz : z == z0
  · have hz' : z = z0 := eq_of_beq hz
    subst hz'
    simp [List.lookup, h]
  · have hzf : (z == z0) = false := by simpa using hz
    simp [List.lookup, hzf]

lemma groupLoop_congr (zb1 zb2 : List (Int × Nat)) (limit : Int) (f : ℚ)
    (h : ∀ z, adjEst zb1 f z = adjEst zb2 f z) :
    ∀ (rest : List Int) (groups : List (List Int)) (current : List Int) (cest : Int),
      groupLoop zb1 limit f rest groups current cest
        = groupLoop zb2 limit f rest groups current cest := by
  intro rest
  induction rest with
  | nil =>
      intro groups current cest
      rfl
  | cons z rest ih =>
      intro groups current cest
      simp only [groupLoop, h z, ih]

/-- C10. A zoom level in the input list that is absent from the estimates
mapping contributes int(0 * overhead) = 0 bytes, and the grouper runs to
completion producing the same result as if the mapping held an explicit
0 entry for that level: .get(z, 0) makes the grouper total. -/
theorem c10_missing_estimate_defaults_zero :
    ∀ (zooms : List Int) (zb : List (Int × Nat)) (limit : Int) (f : ℚ) (z0 : Int),
      z0 ∈ zooms → zb.lookup z0 = none →
      adjEst zb f z0 = 0 ∧
      group_zooms_by_limit zooms zb limit f
        = group_zooms_by_limit zooms ((z0, 0) :: zb) limit f := by
  intro zooms zb limit f z0 _ h
  refine ⟨adjEst_lookup_none zb f z0 h, ?_⟩
  unfold group_zooms_by_limit
  exact (groupLoop_congr ((z0, 0) :: zb) zb limit f (adjEst_cons_self zb f z0 h)
    zooms [] [] 0).symm

/-- Witness for C10 at a concrete input. -/
theorem c10_witness :
    adjEst [] (mkRat 2 1) 5 = 0 ∧
    group_zooms_by_limit [5] [] 10 (mkRat 2 1)
      = group_zooms_by_limit [5] [(5, 0)] 10 (mkRat 2 1) :=
  c10_missing_estimate_defaults_zero [5] [] 10 (mkRat 2 1) 5 (by decide) rfl

/-- C5, amended. For Tiles-schema sources the estimate mapping always has
an entry for every enumerated zoom level; for MapImages-schema sources it
does provided every coordinate row's tile_id resolves to an image row
(the estimator's inner join drops a zoom level whose coordinate rows all
reference missing images, as c5_counterexample shows); and a row whose
blob is null contributes 0 bytes to its level's total, in both schemas. -/
theorem c5_estimator_covers_all_zooms :
    (∀ (db : TilesDb), ∀ z ∈ get_zoom_levels (SourceDb.tiles db),
      z ∈ (estimate_zoom_sizes_bytes (SourceDb.tiles db)).map Prod.fst) ∧
    (∀ (db : MapImagesDb),
      (∀ m ∈ db.map, ∃ i ∈ db.images, i.tid = m.tid) →
      ∀ z ∈ get_zoom_levels (SourceDb.mapImages db),
        z ∈ (estimate_zoom_sizes_bytes (SourceDb.mapImages db)).map Prod.fst) ∧
    (∀ (rows : List TileRow) (r : TileRow) (z : Int), r.data = none →
      tiles_zoom_total (r :: rows) z = tiles_zoom_total rows z) ∧
    (∀ (j : List (MapRow × ImgRow)) (p : MapRow × ImgRow) (z : Int), p.2.data = none →
      mi_zoom_total (p :: j) z = mi_zoom_total j z) := by
  refine ⟨?_, ?_, ?_, ?_⟩
  · intro db z hz
    simp only [get_zoom_levels] at hz
    simpa [estimate_zoom_sizes_bytes, List.map_map, Function.comp] using hz
  · intro db hres z hz
    simp only [get_zoom_levels] at hz
    rw [mem_distinctSorted] at hz
    rcases List.mem_map.mp hz with ⟨m, hm, rfl⟩
    rcases hres m hm with ⟨i, hi, htid⟩
    have hjoin : (m, i) ∈ mi_join db := by
      unfold mi_join
      refine List.mem_flatMap.mpr ⟨m, hm, ?_⟩
      exact List.mem_map.mpr ⟨i, List.mem_filter.mpr ⟨hi, by simp [htid]⟩, rfl⟩
    have hz2 : m.z ∈ (mi_join db).map (fun p => p.1.z) :=
      List.mem_map.mpr ⟨(m, i), hjoin, rfl⟩
    have hz3 : m.z ∈ distinctSorted ((mi_join db).map (fun p => p.1.z)) :=
      mem_distinctSorted.mpr hz2
    simpa [estimate_zoom_sizes_bytes, List.map_map, Function.comp] using hz3
  · intro rows r z hr
    unfold tiles_zoom_total
    by_cases hz : r.z == z
    · simp [List.filter_cons, hz, blob_len, hr]
    · simp [List.filter_cons, hz]
  · intro j p z hp
    unfold mi_zoom_total
    by_cases hz : p.1.z == z
    · simp [List.filter_cons, hz, blob_len, hp]
    · simp [List.filter_cons, hz]

/-- Witness for the MapImages part of the amended C5 at a concrete,
referentially intact archive. -/
theorem c5_witness :
    7 ∈ (estimate_zoom_sizes_bytes (SourceDb.mapImages c5_wit_db)).map Prod.fst :=
  c5_estimator_covers_all_zooms.2.1 c5_wit_db (by decide) 7 (by decide)

lemma metadata_upsert2_eq (mm : List (String × String)) (v1 v2 : String) :
    upsert_metadata (upsert_metadata (copy_metadata mm) "minzoom" v1) "maxzoom" v2
      = ((mm.filter (fun e => !(e.1 == "minzoom"))).filter (fun e => !(e.1 == "maxzoom")))
          ++ [("minzoom", v1), ("maxzoom", v2)] := by
  have hb : (("minzoom" : String) == "maxzoom") = false := by decide
  simp [upsert_metadata, copy_metadata, List.filter_append, hb]

lemma metadata_mem_other (mm : List (String × String)) (v1 v2 n v : String)
    (hn1 : n ≠ "minzoom") (hn2 : n ≠ "maxzoom") :
    ((n, v) ∈ upsert_metadata (upsert_metadata (copy_metadata mm) "minzoom" v1)
        "maxzoom" v2 ↔ (n, v) ∈ mm) := by
  rw [metadata_upsert2_eq]
  simp [List.mem_filter, hn1, hn2]

lemma metadata_count_minzoom (mm : List (String × String)) (v1 v2 : String) :
    ((upsert_metadata (upsert_metadata (copy_metadata mm) "minzoom" v1) "maxzoom" v2).map
      Prod.fst).count "minzoom" = 1 := by
  rw [metadata_upsert2_eq, List.map_append, List.count_append]
  have h0 : ((mm.filter (fun a => (!(a.1 == "maxzoom") && !(a.1 == "minzoom")))).map
      Prod.fst).count "minzoom" = 0 := by
    rw [List.count_eq_zero]
    intro hmem
    rcases List.mem_map.mp hmem with ⟨e, he, hfst⟩
    have hp := (List.mem_filter.mp he).2
    simp [hfst] at hp
  have e1 : (("minzoom" : String) == "minzoom") = true := by decide
  have e2 : (("maxzoom" : String) == "minzoom") = false := by decide
  simp [h0, List.count_cons, List.count_nil, e1, e2]

lemma metadata_count_maxzoom (mm : List (String × String)) (v1 v2 : String) :
    ((upsert_metadata (upsert_metadata (copy_metadata mm) "minzoom" v1) "maxzoom" v2).map
      Prod.fst).count "maxzoom" = 1 := by
  rw [metadata_upsert2_eq, List.map_append, List.count_append]
  have h0 : ((mm.filter (fun a => (!(a.1 == "maxzoom") && !(a.1 == "minzoom")))).map
      Prod.fst).count "maxzoom" = 0 := by
    rw [List.count_eq_zero]
    intro hmem
    rcases List.mem_map.mp hmem with ⟨e, he, hfst⟩
    have hp := (List.mem_filter.mp he).2
    simp [hfst] at hp
  have e1 : (("minzoom" : String) == "maxzoom") = false := by decide
  have e2 : (("maxzoom" : String) == "maxzoom") = true := by decide
  simp [h0, List.count_cons, List.count_nil, e1, e2]

lemma metadata_mem_minzoom (mm : List (String × String)) (v1 v2 : String) :
    ("minzoom", v1) ∈
      upsert_metadata (upsert_metadata (copy_metadata mm) "minzoom" v1) "maxzoom" v2 := by
  rw [metadata_upsert2_eq]
  simp

lemma metadata_mem_maxzoom (mm : List (String × String)) (v1 v2 : String) :
    ("maxzoom", v2) ∈
      upsert_metadata (upsert_metadata (copy_metadata mm) "minzoom" v1) "maxzoom" v2 := by
  rw [metadata_upsert2_eq]
  simp

lemma split_tiles_metadata_eq (src : TilesDb) (zooms : List Int) :
    (split_tiles_schema src zooms).metadata
      = upsert_metadata (upsert_metadata (copy_metadata src.metadata) "minzoom"
          (toString (listMin zooms))) "maxzoom" (toString (listMax zooms)) := rfl

lemma split_mi_metadata_eq (src : MapImagesDb) (zooms : List Int) :
    (split_map_images_schema src zooms).metadata
      = upsert_metadata (upsert_metadata (copy_metadata src.metadata) "minzoom"
          (toString (listMin zooms))) "maxzoom" (toString (listMax zooms)) := rfl

/-- C8. After either writer runs with a non-empty group, the output
metadata keeps every source entry with a name other than minzoom/maxzoom
(membership preserved verbatim), while minzoom and maxzoom each occur
exactly once, bound to the group's minimum and maximum zoom level. -/
theorem c8_metadata_minmax :
    ∀ (src : TilesDb) (msrc : MapImagesDb) (zooms : List Int), zooms ≠ [] →
      ((∀ n v, n ≠ "minzoom" → n ≠ "maxzoom" →
          ((n, v) ∈ (split_tiles_schema src zooms).metadata ↔ (n, v) ∈ src.metadata)) ∧
        ((split_tiles_schema src zooms).metadata.map Prod.fst).count "minzoom" = 1 ∧
        ("minzoom", toString (listMin zooms)) ∈ (split_tiles_schema src zooms).metadata ∧
        ((split_tiles_schema src zooms).metadata.map Prod.fst).count "maxzoom" = 1 ∧
        ("maxzoom", toString (listMax zooms)) ∈ (split_tiles_schema src zooms).metadata) ∧
      ((∀ n v, n ≠ "minzoom" → n ≠ "maxzoom" →
          ((n, v) ∈ (split_map_images_schema msrc zooms).metadata ↔ (n, v) ∈ msrc.metadata)) ∧
        ((split_map_images_schema msrc zooms).metadata.map Prod.fst).count "minzoom" = 1 ∧
        ("minzoom", toString (listMin zooms)) ∈ (split_map_images_schema msrc zooms).metadata ∧
        ((split_map_images_schema msrc zooms).metadata.map Prod.fst).count "maxzoom" = 1 ∧
        ("maxzoom", toString (listMax zooms)) ∈ (split_map_images_schema msrc zooms).metadata) := by
  intro src msrc zooms _
  rw [split_tiles_metadata_eq, split_mi_metadata_eq]
  exact ⟨⟨fun n v hn1 hn2 => metadata_mem_other src.metadata _ _ n v hn1 hn2,
      metadata_count_minzoom src.metadata _ _, metadata_mem_minzoom src.metadata _ _,
      metadata_count_maxzoom src.metadata _ _, metadata_mem_maxzoom src.metadata _ _⟩,
    ⟨fun n v hn1 hn2 => metadata_mem_other msrc.metadata _ _ n v hn1 hn2,
      metadata_count_minzoom msrc.metadata _ _, metadata_mem_minzoom msrc.metadata _ _,
      metadata_count_maxzoom msrc.metadata _ _, metadata_mem_maxzoom msrc.metadata _ _⟩⟩

/-- Witness for C8 at a concrete source whose metadata already has a
minzoom entry (it is replaced, not duplicated). -/
theorem c8_witness :
    ((split_tiles_schema c8_wit_src [2, 5]).metadata.map Prod.fst).count "minzoom" = 1 ∧
    ("minzoom", toString (listMin [2, 5])) ∈ (split_tiles_schema c8_wit_src [2, 5]).metadata :=
  ⟨(c8_metadata_minmax c8_wit_src c8_wit_msrc [2, 5] (by decide)).1.2.1,
    (c8_metadata_minmax c8_wit_src c8_wit_msrc [2, 5] (by decide)).1.2.2.1⟩
